import Mathlib

/-!
Verification of the shader-cam capture-to-display pipeline (src/main.rs).

The development shallowly embeds the three core pieces of the program:

* `yuyv_to_rgb` — the colorspace converter (packed YUYV 4:2:2 to RGB).
  The Rust code computes in `f32`; here every floating-point operation is
  modelled by exact rational arithmetic over `Rat`.  All concrete values
  appearing in the claims (multiples of 0, full-integer luma, clamp
  saturation) are computed exactly by `f32` as well, so the rational model
  agrees with the code on them, and the bound/length/shape properties
  proved below are independent of rounding.
* `get_best_format` — the format negotiator.  The Rust code folds over the
  enumerated (format, frame size, frame interval) triples of the device with
  a mutable best-so-far state; the comparison `w * h * fps * fps` is `u32`
  arithmetic, modelled here by multiplication reduced modulo `2 ^ 32` at
  every step (release-mode wrapping semantics).
* the startup sequence of `main` — applying the negotiated format to the
  device and aborting (panic, modelled as an error value) when the device
  reports back a fourcc other than YUYV — and the letterbox rectangle of
  the per-frame draw call, with `f32` again modelled by `Rat`.

Device behaviour (what `enum_formats`, `enum_framesizes`,
`enum_frameintervals` and `set_format` answer) is kept abstract: a
capability tree `DeviceCaps` and a `set_format` response function are
parameters of the model.
-/

namespace ShaderCam

/-! ## Data model (v4l types used by the program) -/

/-- A v4l fraction, as used by discrete frame intervals
(seconds per frame = numerator / denominator). -/
structure Fraction where
  numerator : Nat
  denominator : Nat
deriving DecidableEq, Repr

/-- The `FrameIntervalEnum` of v4l: the program only evaluates the
`Discrete` variant and skips everything else. -/
inductive FrameIntervalEnum where
  | Discrete : Fraction → FrameIntervalEnum
  | Stepwise : FrameIntervalEnum
deriving DecidableEq, Repr

/-- The `FrameSizeEnum` of v4l: the program only evaluates the `Discrete`
variant (an exact width and height) and skips everything else. -/
inductive FrameSizeEnum where
  | Discrete : Nat → Nat → FrameSizeEnum
  | Stepwise : FrameSizeEnum
deriving DecidableEq, Repr

/-- One answer of `enum_framesizes`: a size descriptor together with the
answers `enum_frameintervals` gives for that size. -/
structure SizeEntry where
  size : FrameSizeEnum
  intervals : List FrameIntervalEnum
deriving DecidableEq, Repr

/-- One answer of `enum_formats`: a pixel format (fourcc rendered as a
string, as `fourcc.str()` does) together with the answers
`enum_framesizes` gives for it. -/
structure FormatEntry where
  fourcc : String
  sizes : List SizeEntry
deriving DecidableEq, Repr

/-- The whole capability tree a device enumerates, in enumeration order. -/
abbrev DeviceCaps := List FormatEntry

/-- The v4l `Format` value built by `Format::new(width, height, fourcc)`. -/
structure Format where
  width : Nat
  height : Nat
  fourcc : String
deriving DecidableEq, Repr

/-! ## Colorspace converter: `yuyv_to_rgb` (src/main.rs lines 72–91)

Bytes are modelled as natural numbers; `f32` values as rationals.
`f32::clamp(x, 0.0, 255.0)` is `clampRat`, and the Rust cast `as u8`
applied to a value already clamped into `[0, 255]` truncates toward zero,
i.e. takes the floor. -/

/-- Model of `f32::clamp(x, lo, hi)`. -/
def clampRat (x lo hi : Rat) : Rat := max lo (min x hi)

/-- Model of the Rust cast `as u8` on a nonnegative float: truncation
toward zero, i.e. the floor, as a natural number. -/
def toByte (x : Rat) : Nat := (⌊x⌋ : Int).toNat

/-- The three channels emitted for one luma sample `y` with centred chroma
`u, v` (the loop body of `yuyv_to_rgb`, already specialised to one of the
two luma samples of a group). -/
def pixelRGB (y u v : Rat) : List Nat :=
  [ toByte (clampRat (y + 1.402 * v) 0 255)
  , toByte (clampRat (y - 0.344136 * u - 0.714136 * v) 0 255)
  , toByte (clampRat (y + 1.772 * u) 0 255) ]

/-- `yuyv_to_rgb`: while at least four bytes remain (`i + 3 < len`), take a
group `[y0, u, y1, v]`, centre the chroma, emit two RGB triplets; fewer
than four remaining bytes are dropped. -/
def yuyv_to_rgb : List Nat → List Nat
  | y0 :: u :: y1 :: v :: rest =>
      pixelRGB (y0 : Rat) ((u : Rat) - 128) ((v : Rat) - 128)
        ++ pixelRGB (y1 : Rat) ((u : Rat) - 128) ((v : Rat) - 128)
        ++ yuyv_to_rgb rest
  | _ => []

/-! ## Lemmas about the colorspace converter -/

lemma clampRat_nonneg (x : Rat) : 0 ≤ clampRat x 0 255 := le_max_left _ _

lemma clampRat_le (x : Rat) : clampRat x 0 255 ≤ 255 :=
  max_le (by norm_num) (min_le_right _ _)

lemma toByte_le (x : Rat) : toByte (clampRat x 0 255) ≤ 255 := by
  have h1 : (⌊clampRat x 0 255⌋ : Int) ≤ 255 := by
    have := Int.floor_le_floor (α := Rat) (clampRat_le x)
    simpa using this
  simp [toByte]
  omega

lemma mem_pixelRGB_le {b : Nat} {y u v : Rat} (h : b ∈ pixelRGB y u v) : b ≤ 255 := by
  simp [pixelRGB] at h
  rcases h with h | h | h <;> subst h <;> exact toByte_le _

lemma mem_yuyv_le : ∀ (l : List Nat) (b : Nat), b ∈ yuyv_to_rgb l → b ≤ 255
  | y0 :: u :: y1 :: v :: rest, b => by
      intro h
      simp only [yuyv_to_rgb, List.mem_append] at h
      rcases h with (h | h) | h
      · exact mem_pixelRGB_le h
      · exact mem_pixelRGB_le h
      · exact mem_yuyv_le rest b h
  | [], b => by intro h; simp [yuyv_to_rgb] at h
  | [a], b => by intro h; simp [yuyv_to_rgb] at h
  | [a, c], b => by intro h; simp [yuyv_to_rgb] at h
  | [a, c, d], b => by intro h; simp [yuyv_to_rgb] at h

lemma toByte_trunc (y : Rat) (hy : 0 ≤ y) :
    (toByte y : Rat) ≤ y ∧ y < toByte y + 1 := by
  have hfl : (0 : Int) ≤ ⌊y⌋ := Int.floor_nonneg.mpr hy
  have hcast : (toByte y : Rat) = ((⌊y⌋ : Int) : Rat) := by
    simp only [toByte]
    exact_mod_cast congrArg (fun z : Int => (z : Rat)) (Int.toNat_of_nonneg hfl)
  constructor
  · calc (toByte y : Rat) = ((⌊y⌋ : Int) : Rat) := hcast
      _ ≤ y := Int.floor_le y
  · have h2 : y < ⌊y⌋ + 1 := Int.lt_floor_add_one y
    calc y < ((⌊y⌋ : Int) : Rat) + 1 := h2
      _ = (toByte y : Rat) + 1 := by rw [hcast]

/-- Claim C3: for every input byte buffer whose length is a multiple of 4,
`yuyv_to_rgb` returns an RGB buffer of length `len / 4 * 6`; for buffers
whose length is not a multiple of 4 the trailing 1–3 bytes are dropped, so
the same formula with truncating division holds.  The function is total by
construction (it returns a list for every input and has no error path). -/
theorem c3_yuyv_length : ∀ l : List Nat, (yuyv_to_rgb l).length = l.length / 4 * 6
  | [] => by simp [yuyv_to_rgb]
  | [a] => by simp [yuyv_to_rgb]
  | [a, b] => by simp [yuyv_to_rgb]
  | [a, b, c] => by simp [yuyv_to_rgb]
  | y0 :: u :: y1 :: v :: rest => by
      simp [yuyv_to_rgb, pixelRGB, c3_yuyv_length rest]
      omega

/-- Claim C4: `yuyv_to_rgb [16, 128, 16, 128]` is `[16,16,16, 16,16,16]`
(black with neutral chroma) and `yuyv_to_rgb [235, 128, 235, 128]` is
`[235,235,235, 235,235,235]` (white). -/
theorem c4_yuyv_values :
    yuyv_to_rgb [16, 128, 16, 128] = [16, 16, 16, 16, 16, 16] ∧
    yuyv_to_rgb [235, 128, 235, 128] = [235, 235, 235, 235, 235, 235] := by
  constructor <;> (norm_num [yuyv_to_rgb, pixelRGB, clampRat, toByte]; decide)

/-- Claim C5: every byte produced by `yuyv_to_rgb` lies in `[0, 255]`
(lower bound holds by the output type, upper bound proved for every input
buffer); each emitted channel is the truncation of the clamped
floating-point expression, stated by the floor characterisation
`toByte y ≤ y < toByte y + 1` of the clamped value; and the extreme-chroma
input Y=128, U=255, V=0 produces the saturated triplet `[0, 175, 255]`
twice, staying inside the byte range. -/
theorem c5_yuyv_clamped :
    (∀ (l : List Nat) (b : Nat), b ∈ yuyv_to_rgb l → b ≤ 255) ∧
    (∀ x : Rat, (toByte (clampRat x 0 255) : Rat) ≤ clampRat x 0 255 ∧
      clampRat x 0 255 < toByte (clampRat x 0 255) + 1) ∧
    yuyv_to_rgb [128, 255, 128, 0] = [0, 175, 255, 0, 175, 255] := by
  refine ⟨mem_yuyv_le, fun x => toByte_trunc _ (clampRat_nonneg x), ?_⟩
  norm_num [yuyv_to_rgb, pixelRGB, clampRat, toByte]
  decide

/-- Witness for C5: the first conjunct applied at the concrete buffer
`[16, 128, 16, 128]` and output byte 16. -/
theorem c5_yuyv_clamped_witness :
    (16 ∈ yuyv_to_rgb [16, 128, 16, 128]) ∧ 16 ≤ 255 :=
  have hmem : (16 : Nat) ∈ yuyv_to_rgb [16, 128, 16, 128] := by
    have h : yuyv_to_rgb [16, 128, 16, 128] = [16, 16, 16, 16, 16, 16] := by
      norm_num [yuyv_to_rgb, pixelRGB, clampRat, toByte]; decide
    rw [h]; simp
  ⟨hmem, c5_yuyv_clamped.1 [16, 128, 16, 128] 16 hmem⟩

/-! ## Format negotiator: `get_best_format` (src/main.rs lines 93–134)

The Rust function keeps mutable `best_width`, `best_height`, `best_fps`,
`best_fourcc` (initially 0, 0, 0, YUYV) and walks the enumeration with
three nested loops: formats whose fourcc is not YUYV are skipped, frame
sizes that are not `Discrete` are skipped, frame intervals that are not
`Discrete` or have numerator 0 are skipped; each surviving candidate is
compared by `w * h * fps * fps > best_width * best_height * best_fps *
best_fps` in `u32` arithmetic (each multiplication reduced modulo
`2 ^ 32`, release-mode wrapping).  The nested loops are embedded directly
(`foldIntervals`, `foldSizes`, `foldFormats`); `candidates` flattens the
same traversal into the list of surviving candidates in enumeration order
and is proved to produce the same result. -/

/-- One (fourcc, width, height, fps) quadruple reaching the loop body of
`get_best_format`; also the type of the best-so-far state. -/
structure Candidate where
  fourcc : String
  width : Nat
  height : Nat
  fps : Nat
deriving DecidableEq, Repr

/-- The modulus of `u32` arithmetic. -/
def U32 : Nat := 2 ^ 32

/-- `u32` multiplication with release-mode wrapping semantics. -/
def mul32 (a b : Nat) : Nat := a * b % U32

/-- The comparison key `w * h * fps * fps` exactly as the code computes
it, in `u32` arithmetic. -/
def score32 (c : Candidate) : Nat := mul32 (mul32 (mul32 c.width c.height) c.fps) c.fps

/-- The mathematically exact quality score `w * h * fps * fps`. -/
def trueScore (c : Candidate) : Nat := c.width * c.height * c.fps * c.fps

/-- The initial best-so-far state: `best_width = 0`, `best_height = 0`,
`best_fps = 0`, `best_fourcc = FourCC::new(b"YUYV")`. -/
def initBest : Candidate := ⟨"YUYV", 0, 0, 0⟩

/-- The comparison and update in the innermost loop body. -/
def updateBest (st c : Candidate) : Candidate := if score32 st < score32 c then c else st

/-- The innermost loop over `enum_frameintervals`: skip non-discrete
intervals and zero numerators, compute `fps = denominator / numerator`,
then compare and update. -/
def foldIntervals (fourcc : String) (w h : Nat) (st : Candidate) :
    List FrameIntervalEnum → Candidate
  | [] => st
  | FrameIntervalEnum.Discrete f :: rest =>
      if 0 < f.numerator then
        foldIntervals fourcc w h (updateBest st ⟨fourcc, w, h, f.denominator / f.numerator⟩) rest
      else foldIntervals fourcc w h st rest
  | FrameIntervalEnum.Stepwise :: rest => foldIntervals fourcc w h st rest

/-- The middle loop over `enum_framesizes`: skip non-discrete sizes. -/
def foldSizes (fourcc : String) (st : Candidate) : List SizeEntry → Candidate
  | [] => st
  | se :: rest =>
      match se.size with
      | FrameSizeEnum.Discrete w h =>
          foldSizes fourcc (foldIntervals fourcc w h st se.intervals) rest
      | FrameSizeEnum.Stepwise => foldSizes fourcc st rest

/-- The outer loop over `enum_formats`: skip every fourcc other than
YUYV. -/
def foldFormats (st : Candidate) : DeviceCaps → Candidate
  | [] => st
  | fe :: rest =>
      if fe.fourcc = "YUYV" then foldFormats (foldSizes fe.fourcc st fe.sizes) rest
      else foldFormats st rest

/-- The best-so-far state after the whole enumeration. -/
def bestCandidate (caps : DeviceCaps) : Candidate := foldFormats initBest caps

/-- `get_best_format`: the pair `(Format::new(best_width, best_height,
best_fourcc), best_fps)` returned after the loops.  Note the return type:
the function always returns a format and has no error value. -/
def get_best_format (caps : DeviceCaps) : Format × Nat :=
  (⟨(bestCandidate caps).width, (bestCandidate caps).height, (bestCandidate caps).fourcc⟩,
    (bestCandidate caps).fps)

/-- The candidates surviving the three filters, in enumeration order:
the innermost level. -/
def intervalCandidates (fourcc : String) (w h : Nat) : List FrameIntervalEnum → List Candidate
  | [] => []
  | FrameIntervalEnum.Discrete f :: rest =>
      if 0 < f.numerator then
        ⟨fourcc, w, h, f.denominator / f.numerator⟩ :: intervalCandidates fourcc w h rest
      else intervalCandidates fourcc w h rest
  | FrameIntervalEnum.Stepwise :: rest => intervalCandidates fourcc w h rest

/-- The candidates surviving the filters below one format entry. -/
def sizeCandidates (fourcc : String) : List SizeEntry → List Candidate
  | [] => []
  | se :: rest =>
      match se.size with
      | FrameSizeEnum.Discrete w h =>
          intervalCandidates fourcc w h se.intervals ++ sizeCandidates fourcc rest
      | FrameSizeEnum.Stepwise => sizeCandidates fourcc rest

/-- All candidates of the device surviving the filters, in enumeration
order. -/
def candidates : DeviceCaps → List Candidate
  | [] => []
  | fe :: rest =>
      (if fe.fourcc = "YUYV" then sizeCandidates fe.fourcc fe.sizes else []) ++ candidates rest

/-! ### The nested loops compute a left fold over the candidate list -/

lemma foldIntervals_eq (fourcc : String) (w h : Nat) :
    ∀ (ivs : List FrameIntervalEnum) (st : Candidate),
      foldIntervals fourcc w h st ivs = (intervalCandidates fourcc w h ivs).foldl updateBest st
  | [], _ => rfl
  | FrameIntervalEnum.Discrete f :: rest, st => by
      by_cases hn : 0 < f.numerator <;>
        simp [foldIntervals, intervalCandidates, hn, foldIntervals_eq fourcc w h rest]
  | FrameIntervalEnum.Stepwise :: rest, st => by
      simp [foldIntervals, intervalCandidates, foldIntervals_eq fourcc w h rest]

lemma foldSizes_eq (fourcc : String) :
    ∀ (sizes : List SizeEntry) (st : Candidate),
      foldSizes fourcc st sizes = (sizeCandidates fourcc sizes).foldl updateBest st
  | [], _ => rfl
  | se :: rest, st => by
      cases hse : se.size with
      | Discrete w h =>
          simp [foldSizes, sizeCandidates, hse, List.foldl_append,
            foldSizes_eq fourcc rest, foldIntervals_eq]
      | Stepwise =>
          simp [foldSizes, sizeCandidates, hse, foldSizes_eq fourcc rest]

lemma foldFormats_eq :
    ∀ (caps : DeviceCaps) (st : Candidate),
      foldFormats st caps = (candidates caps).foldl updateBest st
  | [], _ => rfl
  | fe :: rest, st => by
      by_cases hf : fe.fourcc = "YUYV" <;>
        simp [foldFormats, candidates, hf, List.foldl_append, foldFormats_eq rest, foldSizes_eq]

lemma bestCandidate_eq (caps : DeviceCaps) :
    bestCandidate caps = (candidates caps).foldl updateBest initBest :=
  foldFormats_eq caps initBest

/-! ### Argmax facts about the fold -/

lemma score32_updateBest_left (st c : Candidate) : score32 st ≤ score32 (updateBest st c) := by
  unfold updateBest
  split
  · exact le_of_lt (by assumption)
  · exact le_refl _

lemma score32_updateBest_right (st c : Candidate) : score32 c ≤ score32 (updateBest st c) := by
  unfold updateBest
  split
  · exact le_refl _
  · omega

lemma foldl_updateBest_ge_init :
    ∀ (l : List Candidate) (st : Candidate), score32 st ≤ score32 (l.foldl updateBest st)
  | [], _ => le_refl _
  | c :: rest, st =>
      le_trans (score32_updateBest_left st c) (foldl_updateBest_ge_init rest (updateBest st c))

lemma foldl_updateBest_ge_mem :
    ∀ (l : List Candidate) (st c : Candidate), c ∈ l → score32 c ≤ score32 (l.foldl updateBest st)
  | [], _, _ => by intro h; simp at h
  | a :: rest, st, c => by
      intro h
      rcases List.mem_cons.mp h with h | h
      · subst h
        exact le_trans (score32_updateBest_right st c) (foldl_updateBest_ge_init rest _)
      · exact foldl_updateBest_ge_mem rest (updateBest st a) c h

lemma foldl_updateBest_first :
    ∀ (l : List Candidate) (st : Candidate),
      l.foldl updateBest st = st ∨
      ∃ l₁ l₂, l = l₁ ++ (l.foldl updateBest st) :: l₂ ∧
        score32 st < score32 (l.foldl updateBest st) ∧
        ∀ c ∈ l₁, score32 c < score32 (l.foldl updateBest st)
  | [], _ => Or.inl rfl
  | a :: rest, st => by
      by_cases hc : score32 st < score32 a
      · have hstep : updateBest st a = a := by simp [updateBest, hc]
        have hfold : (a :: rest).foldl updateBest st = rest.foldl updateBest a := by
          simp [List.foldl_cons, hstep]
        rcases foldl_updateBest_first rest a with h | ⟨l₁, l₂, hsplit, hlt, hall⟩
        · refine Or.inr ⟨[], rest, ?_, ?_, by simp⟩
          · simp [hfold, h]
          · rw [hfold, h]; exact hc
        · refine Or.inr ⟨a :: l₁, l₂, ?_, ?_, ?_⟩
          · rw [hfold, List.cons_append]
            exact congrArg (List.cons a) hsplit
          · rw [hfold]; exact lt_trans hc hlt
          · intro c hcmem
            rcases List.mem_cons.mp hcmem with h | h
            · subst h; rw [hfold]; exact hlt
            · rw [hfold]; exact hall c h
      · have hstep : updateBest st a = st := by simp [updateBest, hc]
        have hfold : (a :: rest).foldl updateBest st = rest.foldl updateBest st := by
          simp [List.foldl_cons, hstep]
        rcases foldl_updateBest_first rest st with h | ⟨l₁, l₂, hsplit, hlt, hall⟩
        · exact Or.inl (by rw [hfold, h])
        · refine Or.inr ⟨a :: l₁, l₂, ?_, ?_, ?_⟩
          · rw [hfold, List.cons_append]
            exact congrArg (List.cons a) hsplit
          · rw [hfold]; exact hlt
          · intro c hcmem
            rcases List.mem_cons.mp hcmem with h | h
            · subst h; rw [hfold]; exact lt_of_le_of_lt (le_of_not_lt hc) hlt
            · rw [hfold]; exact hall c h

/-- The wrapped score is the exact score reduced modulo `2 ^ 32`. -/
lemma score32_eq_mod (c : Candidate) : score32 c = trueScore c % 2 ^ 32 := by
  simp [score32, mul32, trueScore, U32, Nat.mod_mul_mod]

/-- With no surviving candidate the fold never updates and the degenerate
initial state is returned. -/
lemma get_best_format_empty (caps : DeviceCaps) (h : candidates caps = []) :
    get_best_format caps = (⟨0, 0, "YUYV"⟩, 0) := by
  simp [get_best_format, bestCandidate_eq, h, initBest]

/-! ## Startup sequence of `main` (src/main.rs lines 143–150)

`main` negotiates, hands the negotiated format to `set_format`
unconditionally, and aborts — the Rust code panics with
`Unsupported format`, which the spec calls the `FormatMismatch`
diagnostic, modelled here as an error value — unless the fourcc the
device reports back is YUYV; only in the `ok` case does it go on to
create the stream. -/

/-- The only fatal startup condition reached through a returned value
(the remaining failures in `main` are unwraps of external calls). -/
inductive StartupError where
  | FormatMismatch
deriving DecidableEq, Repr

/-- The startup sequence: negotiate, apply (the device response to
`set_format` is the parameter `set_format`), then check the reported
fourcc.  The first component records which format was passed to
`set_format`; the second is the outcome. -/
def cameraSetup (caps : DeviceCaps) (set_format : Format → Format) :
    Format × Except StartupError (Format × Nat) :=
  let r := get_best_format caps
  let cam_format := set_format r.1
  (r.1,
    if cam_format.fourcc = "YUYV" then Except.ok (cam_format, r.2)
    else Except.error StartupError.FormatMismatch)

/-! ## Render pipeline: the letterbox rectangle (src/main.rs lines 179–185)

Each frame the code computes `width = WIN_HEIGHT * target.width /
target.height`, `x = (WIN_WIDTH - width) / 2` and draws into
`Rectangle::new(x, 0.0, width, WIN_HEIGHT)` with `WIN_WIDTH = 1280`,
`WIN_HEIGHT = 720`; `f32` arithmetic is modelled by `Rat`. -/

/-- The fixed window width (`WIN_WIDTH`). -/
def WIN_WIDTH : Rat := 1280

/-- The fixed window height (`WIN_HEIGHT`). -/
def WIN_HEIGHT : Rat := 720

/-- A raylib rectangle `Rectangle::new(x, y, width, height)`. -/
structure Rectangle where
  x : Rat
  y : Rat
  width : Rat
  height : Rat
deriving DecidableEq, Repr

/-- The destination rectangle of the per-frame `draw_texture_pro` call,
as a function of the negotiated texture size. -/
def letterboxRect (texWidth texHeight : Nat) : Rectangle :=
  let width : Rat := WIN_HEIGHT * (texWidth : Rat) / (texHeight : Rat)
  let x : Rat := (WIN_WIDTH - width) / 2
  ⟨x, 0, width, WIN_HEIGHT⟩

/-! ## Concrete capability sets used by witnesses and counterexamples -/

/-- Two YUYV candidates: 1920×1080@60, whose exact score 7464960000
overflows `u32`, enumerated before 1280×720@60, whose score 3317760000
does not. -/
def capsOverflow : DeviceCaps :=
  [⟨"YUYV",
    [⟨FrameSizeEnum.Discrete 1920 1080, [FrameIntervalEnum.Discrete ⟨1, 60⟩]⟩,
     ⟨FrameSizeEnum.Discrete 1280 720, [FrameIntervalEnum.Discrete ⟨1, 60⟩]⟩]⟩]

/-- A device exposing only an MJPG format: every candidate is filtered
out, so the negotiator sees zero discrete YUYV candidates. -/
def capsFiltered : DeviceCaps :=
  [⟨"MJPG", [⟨FrameSizeEnum.Discrete 640 480, [FrameIntervalEnum.Discrete ⟨1, 30⟩]⟩]⟩]

/-! ## Claims about the negotiator and the startup sequence -/

/-- Counterexample to claim C1: on a device with no surviving candidate
(here the empty capability set), `get_best_format` does not fail with
`NoCompatibleFormat` — its return type has no error value at all — but
returns the `CaptureFormat` `Format::new(0, 0, YUYV)` with frame
rate 0. -/
theorem c1_no_error_counterexample :
    candidates [] = [] ∧ get_best_format [] = (⟨0, 0, "YUYV"⟩, 0) := by decide

/-- Claim C1 as amended: for every device whose capability set yields no
candidate with YUYV encoding, a discrete size and a discrete interval,
`get_best_format` returns the degenerate value `(Format::new(0, 0, YUYV),
0)`; the function is total and never produces an error. -/
theorem c1_amended_degenerate (caps : DeviceCaps) (h : candidates caps = []) :
    get_best_format caps = (⟨0, 0, "YUYV"⟩, 0) :=
  get_best_format_empty caps h

/-- Witness for the amended C1: a device exposing only MJPG formats. -/
theorem c1_amended_degenerate_witness :
    candidates capsFiltered = [] ∧ get_best_format capsFiltered = (⟨0, 0, "YUYV"⟩, 0) :=
  ⟨by decide, c1_amended_degenerate capsFiltered (by decide)⟩

/-- Counterexample to claim C2: on `capsOverflow` the negotiator returns
the 1280×720@60 candidate although the earlier 1920×1080@60 candidate has
the strictly larger exact score `width * height * frameRate²` — the
comparison wraps modulo `2 ^ 32`. -/
theorem c2_true_score_counterexample :
    (⟨"YUYV", 1920, 1080, 60⟩ : Candidate) ∈ candidates capsOverflow ∧
    get_best_format capsOverflow = (⟨1280, 720, "YUYV"⟩, 60) ∧
    bestCandidate capsOverflow = ⟨"YUYV", 1280, 720, 60⟩ ∧
    trueScore (bestCandidate capsOverflow) < trueScore ⟨"YUYV", 1920, 1080, 60⟩ := by decide

/-- Claim C2 as amended: the candidate kept by `get_best_format`
maximises the score `width * height * frameRate²` computed in `u32`
arithmetic (reduced modulo `2 ^ 32`) over all candidates passing the
encoding/discreteness filters, and among candidates of equal maximal
wrapped score the first in enumeration order is kept (the result is
either the initial zero state or splits the candidate list with every
earlier candidate scoring strictly lower). -/
theorem c2_amended_mod32_argmax (caps : DeviceCaps) :
    (∀ c ∈ candidates caps, score32 c ≤ score32 (bestCandidate caps)) ∧
    (bestCandidate caps = initBest ∨
      ∃ l₁ l₂, candidates caps = l₁ ++ bestCandidate caps :: l₂ ∧
        ∀ c ∈ l₁, score32 c < score32 (bestCandidate caps)) := by
  constructor
  · intro c hc
    rw [bestCandidate_eq]
    exact foldl_updateBest_ge_mem _ _ _ hc
  · rw [bestCandidate_eq]
    rcases foldl_updateBest_first (candidates caps) initBest with h | ⟨l₁, l₂, hsplit, _, hall⟩
    · exact Or.inl h
    · exact Or.inr ⟨l₁, l₂, hsplit, hall⟩

/-- Witness for the amended C2: maximality applied to the overflowing
1920×1080@60 candidate of `capsOverflow`. -/
theorem c2_amended_mod32_argmax_witness :
    (⟨"YUYV", 1920, 1080, 60⟩ : Candidate) ∈ candidates capsOverflow ∧
    score32 ⟨"YUYV", 1920, 1080, 60⟩ ≤ score32 (bestCandidate capsOverflow) :=
  ⟨by decide, (c2_amended_mod32_argmax capsOverflow).1 ⟨"YUYV", 1920, 1080, 60⟩ (by decide)⟩

/-- Claim C6: the destination rectangle of the per-frame draw call has
height 720, width `720 * (w / h)`, vertical offset 0 and horizontal
offset `(1280 - 720 * (w / h)) / 2`; its aspect ratio equals the source
aspect ratio and the left margin equals the right margin (horizontal
centering). -/
theorem c6_letterbox (w h : Nat) (hh : 0 < h) :
    (letterboxRect w h).height = 720 ∧
    (letterboxRect w h).width = 720 * ((w : Rat) / (h : Rat)) ∧
    (letterboxRect w h).y = 0 ∧
    (letterboxRect w h).x = (1280 - 720 * ((w : Rat) / (h : Rat))) / 2 ∧
    (letterboxRect w h).width / (letterboxRect w h).height = (w : Rat) / (h : Rat) ∧
    (letterboxRect w h).x = 1280 - ((letterboxRect w h).x + (letterboxRect w h).width) := by
  have hh0 : ((h : Rat)) ≠ 0 := by
    exact_mod_cast Nat.pos_iff_ne_zero.mp hh
  refine ⟨rfl, ?_, rfl, ?_, ?_, ?_⟩
  · simp [letterboxRect, WIN_WIDTH, WIN_HEIGHT, mul_div_assoc]
  · simp [letterboxRect, WIN_WIDTH, WIN_HEIGHT, mul_div_assoc]
  · simp only [letterboxRect, WIN_WIDTH, WIN_HEIGHT]
    field_simp
    ring
  · simp only [letterboxRect, WIN_WIDTH, WIN_HEIGHT]
    ring

/-- Witness for C6: the 4:3 source 640×480 is drawn 960 wide at
horizontal offset 160 in the 1280×720 viewport. -/
theorem c6_letterbox_witness :
    0 < 480 ∧ (letterboxRect 640 480).width = 960 ∧ (letterboxRect 640 480).x = 160 := by
  have h := c6_letterbox 640 480 (by decide)
  refine ⟨by decide, ?_, ?_⟩
  · rw [h.2.1]; norm_num
  · rw [h.2.2.2.1]; norm_num

/-- Claim C7: if the device reports back a fourcc other than YUYV after
the chosen format is applied, the startup sequence ends in the fatal
`FormatMismatch` outcome (the code panics before any stream is
created). -/
theorem c7_format_mismatch (caps : DeviceCaps) (sf : Format → Format)
    (hm : (sf (get_best_format caps).1).fourcc ≠ "YUYV") :
    (cameraSetup caps sf).2 = Except.error StartupError.FormatMismatch := by
  simp [cameraSetup, hm]

/-- Witness for C7: a device answering every `set_format` request with an
MJPG format. -/
theorem c7_format_mismatch_witness :
    ((fun _ : Format => (⟨640, 480, "MJPG"⟩ : Format)) (get_best_format []).1).fourcc ≠ "YUYV" ∧
    (cameraSetup [] (fun _ => ⟨640, 480, "MJPG"⟩)).2 =
      Except.error StartupError.FormatMismatch :=
  ⟨by decide, c7_format_mismatch [] (fun _ => ⟨640, 480, "MJPG"⟩) (by decide)⟩

/-- Claim C8: when no candidate passes the filters, `get_best_format`
returns the degenerate `(Format::new(0, 0, YUYV), 0)` — it has no error
value — and `main` passes exactly this 0×0 format on to `set_format`. -/
theorem c8_degenerate_applied (caps : DeviceCaps) (sf : Format → Format)
    (h : candidates caps = []) :
    get_best_format caps = (⟨0, 0, "YUYV"⟩, 0) ∧
    (cameraSetup caps sf).1 = (⟨0, 0, "YUYV"⟩ : Format) := by
  refine ⟨get_best_format_empty caps h, ?_⟩
  simp [cameraSetup, get_best_format_empty caps h]

/-- Witness for C8: the MJPG-only device, with the device echoing the
requested format. -/
theorem c8_degenerate_applied_witness :
    candidates capsFiltered = [] ∧
    get_best_format capsFiltered = (⟨0, 0, "YUYV"⟩, 0) ∧
    (cameraSetup capsFiltered (fun f => f)).1 = (⟨0, 0, "YUYV"⟩ : Format) :=
  ⟨by decide, c8_degenerate_applied capsFiltered (fun f => f) (by decide)⟩

/-- Claim C9: the score comparison is `u32` arithmetic — for every
candidate the compared value is the exact score reduced modulo `2 ^ 32`;
the realistic candidate 1920×1080@60 has exact score 7464960000 exceeding
`2 ^ 32 - 1`, and on `capsOverflow` the selected candidate does not
maximise the exact score. -/
theorem c9_u32_score_overflow :
    (∀ c : Candidate, score32 c = trueScore c % 2 ^ 32) ∧
    trueScore ⟨"YUYV", 1920, 1080, 60⟩ > 2 ^ 32 - 1 ∧
    score32 ⟨"YUYV", 1920, 1080, 60⟩ = 3169992704 ∧
    (⟨"YUYV", 1920, 1080, 60⟩ : Candidate) ∈ candidates capsOverflow ∧
    trueScore (bestCandidate capsOverflow) < trueScore ⟨"YUYV", 1920, 1080, 60⟩ :=
  ⟨score32_eq_mod, by decide, by decide, by decide, by decide⟩

/-- Claim C10: every discrete frame interval with positive numerator
yields the candidate with frame rate `denominator / numerator` in
truncating natural division: the computed fps satisfies
`fps * numerator ≤ denominator < (fps + 1) * numerator`, so non-integer
rates are floored before scoring. -/
theorem c10_fps_truncating_div (fourcc : String) (w h : Nat) (fr : Fraction)
    (hn : 0 < fr.numerator) :
    intervalCandidates fourcc w h [FrameIntervalEnum.Discrete fr] =
      [⟨fourcc, w, h, fr.denominator / fr.numerator⟩] ∧
    fr.denominator / fr.numerator * fr.numerator ≤ fr.denominator ∧
    fr.denominator < (fr.denominator / fr.numerator + 1) * fr.numerator := by
  have h1 := Nat.div_add_mod fr.denominator fr.numerator
  have h2 := Nat.mod_lt fr.denominator hn
  refine ⟨by simp [intervalCandidates, hn], Nat.div_mul_le_self _ _, ?_⟩
  calc fr.denominator
      = fr.numerator * (fr.denominator / fr.numerator) + fr.denominator % fr.numerator :=
        h1.symm
    _ < fr.numerator * (fr.denominator / fr.numerator) + fr.numerator := by omega
    _ = (fr.denominator / fr.numerator + 1) * fr.numerator := by ring

/-- Witness for C10: the NTSC interval 1001/30000 (29.97 fps) is floored
to the frame rate 29. -/
theorem c10_fps_truncating_div_witness :
    0 < (1001 : Nat) ∧
    intervalCandidates "YUYV" 640 480 [FrameIntervalEnum.Discrete ⟨1001, 30000⟩] =
      [⟨"YUYV", 640, 480, 29⟩] := by
  refine ⟨by decide, ?_⟩
  have h := (c10_fps_truncating_div "YUYV" 640 480 ⟨1001, 30000⟩ (by decide)).1
  norm_num at h
  exact h

end ShaderCam
